import Mathlib

/-!
Shallow embedding of `v2/document.go` from the license classifier.

Go maps (`map[K]V`) are modelled as association lists without duplicate
keys: assignment replaces the entry for an existing key and otherwise
appends, and lookup returns the first (hence only) entry for the key, so
the model agrees with Go map semantics on every state our operations
produce. Go `int` values that can only ever hold non-negative token
identifiers and sizes are modelled as `Nat`; `float64` thresholds are
modelled as exact rationals `ℚ`, with Go's truncating `int(...)`
conversion made explicit.
-/

namespace LicenseClassifier

/-- Lookup in a Go-map model: the value of the first entry carrying the key. -/
def mapLookup {α β : Type} [DecidableEq α] : List (α × β) → α → Option β
  | [], _ => none
  | p :: m, k => if p.1 = k then some p.2 else mapLookup m k

/-- Assignment `m[k] = v` in a Go-map model: replace the entry for `k` if one
exists, otherwise append a new entry. -/
def mapInsert {α β : Type} [DecidableEq α] : List (α × β) → α → β → List (α × β)
  | [], k, v => [(k, v)]
  | p :: m, k, v => if p.1 = k then (k, v) :: m else p :: mapInsert m k v

/-- `Dictionary` interns token words: `Words` and `Indices` are the two
correlated Go maps `map[tokenID]string` and `map[string]tokenID`. -/
structure Dictionary where
  Words : List (Nat × String)
  Indices : List (String × Nat)
  deriving DecidableEq

/-- Sentinel word returned for an identifier that was never assigned. -/
def unknownWord : String := "UNKNOWN"

/-- Sentinel identifier `0`, reserved for words absent from the dictionary. -/
def unknownIndex : Nat := 0

/-- `newDictionary` returns an empty dictionary (both maps empty). -/
def newDictionary : Dictionary := { Words := [], Indices := [] }

/-- `getIndex` returns the index of the supplied word, or `0` if the word is
not in the dictionary. -/
def Dictionary.getIndex (d : Dictionary) (word : String) : Nat :=
  match mapLookup d.Indices word with
  | some idx => idx
  | none => unknownIndex

/-- `getWord` returns the word associated with the index, or `"UNKNOWN"`. -/
def Dictionary.getWord (d : Dictionary) (index : Nat) : String :=
  match mapLookup d.Words index with
  | some word => word
  | none => unknownWord

/-- `add` inserts the provided word into the dictionary if it does not already
exist; Go mutates the receiver, so the model returns the updated dictionary
alongside the returned token identifier. -/
def Dictionary.add (d : Dictionary) (word : String) : Nat × Dictionary :=
  if d.getIndex word ≠ unknownIndex then (d.getIndex word, d)
  else
    let idx := d.Words.length + 1
    (idx, { Words := mapInsert d.Words idx word,
            Indices := mapInsert d.Indices word idx })

/-- The `Words` map of the dictionary holding `ws` in first-seen order, with
identifiers allocated from `k` upward. -/
def wordsFrom (k : Nat) : List String → List (Nat × String)
  | [] => []
  | w :: ws => (k, w) :: wordsFrom (k + 1) ws

/-- The `Indices` map of the dictionary holding `ws` in first-seen order, with
identifiers allocated from `k` upward. -/
def indicesFrom (k : Nat) : List String → List (String × Nat)
  | [] => []
  | w :: ws => (w, k) :: indicesFrom (k + 1) ws

/-- The canonical dictionary state after interning the distinct words `ws` in
first-seen order: identifiers `1, 2, …` in both directions. -/
def dictOfWords (ws : List String) : Dictionary :=
  { Words := wordsFrom 1 ws, Indices := indicesFrom 1 ws }

/-- Dictionary states reachable by `add` calls from `newDictionary`: the
canonical interning of some duplicate-free first-seen word list. -/
def Dictionary.wf (d : Dictionary) : Prop :=
  ∃ ws : List String, ws.Nodup ∧ d = dictOfWords ws

/-- Go's `max(a, b int) int` helper from `document.go` (named `goMax` here
because `max` is taken in Lean). -/
def goMax (a b : Int) : Int :=
  if a > b then a else b

/-- Go's truncating conversion `int(x)` on a `float64`, on the exact rational
model: rounds toward zero. -/
def goInt (q : ℚ) : Int :=
  if 0 ≤ q then ⌊q⌋ else -⌊-q⌋

/-- `computeQ` maps a similarity threshold to the minimum q-gram run length;
at threshold `1.0` it returns the constant `10` to avoid dividing by zero. -/
def computeQ (threshold : ℚ) : Int :=
  if threshold = 1 then 10
  else goMax 1 (goInt (threshold / (1 - threshold)))

/-- `token` from `document.go`: a single textual token of the input document.
Go's `int` position fields are modelled as `Int`. -/
structure GoToken where
  Text : String
  Index : Int
  Line : Int
  Previous : String
  deriving DecidableEq

/-- `document`: the tokenizer-produced representation of the input text. -/
structure GoDocument where
  Tokens : List GoToken
  deriving DecidableEq

/-- `indexedToken`: positional metadata plus the dictionary identifier. -/
structure IndexedToken where
  Index : Int
  Line : Int
  ID : Nat
  deriving DecidableEq

/-- Modelled from the spec: the frequency-statistics component
(`generateFrequencies` lives outside `document.go`) computes a per-document
token-frequency table from the token identifier sequence; its internal
structure is opaque to this core, so the model keeps the identifier sequence
it was built from. -/
structure FrequencyTable where
  ids : List Nat
  deriving DecidableEq

/-- Modelled from the spec: the search-set component (`newSearchSet` lives
outside `document.go`) builds a q-gram index from an IndexedDocument and the
session's `q`, and can be tagged with an origin string for provenance. -/
structure SearchSet where
  ids : List Nat
  q : Int
  origin : String
  deriving DecidableEq

/-- `IndexedDocument` from `document.go`: ordered indexed tokens, the lazily
attached artifacts `f` and `s` (nil pointers modelled as `none`), the shared
dictionary, the diff runes and the cached normalized string. -/
structure IndexedDocument where
  Tokens : List IndexedToken
  f : Option FrequencyTable
  dict : Dictionary
  s : Option SearchSet
  runes : List Char
  norm : String
  deriving DecidableEq

/-- `size` returns the token count of the indexed document. -/
def IndexedDocument.size (d : IndexedDocument) : Nat :=
  d.Tokens.length

/-- The loop body of `normalized`: each word followed by a single space,
except the last. -/
def joinWords (dict : Dictionary) : List IndexedToken → String
  | [] => ""
  | [t] => dict.getWord t.ID
  | t :: rest => dict.getWord t.ID ++ " " ++ joinWords dict rest

/-- `normalized` returns the tokens' dictionary words concatenated with a
single space. -/
def IndexedDocument.normalized (d : IndexedDocument) : String :=
  joinWords d.dict d.Tokens

/-- Modelled from the spec: `generateFrequencies` (defined outside
`document.go`) attaches the frequency table computed from this document's
token identifier sequence; Go mutates the receiver, so the model returns the
updated document. -/
def IndexedDocument.generateFrequencies (d : IndexedDocument) : IndexedDocument :=
  { d with f := some { ids := d.Tokens.map (fun t => t.ID) } }

/-- Modelled from the spec: `newSearchSet` (defined outside `document.go`)
constructs the q-gram search set of a document for the session's `q`, with an
empty origin tag until the caller sets one. -/
def newSearchSet (d : IndexedDocument) (q : Int) : SearchSet :=
  { ids := d.Tokens.map (fun t => t.ID), q := q, origin := "" }

/-- `generateSearchSet` attaches `newSearchSet(d, q)` to the document. -/
def IndexedDocument.generateSearchSet (d : IndexedDocument) (q : Int) : IndexedDocument :=
  { d with s := some (newSearchSet d q) }

/-- Modelled from the spec: `diffWordsToRunes` (defined outside `document.go`)
renders the token identifiers in the range `[start, fin)` as runes for the
diff collaborator; its exact rune encoding is out of scope, so the model maps
each identifier through `Char.ofNat`. -/
def diffWordsToRunes (d : IndexedDocument) (start fin : Nat) : List Char :=
  ((d.Tokens.drop start).take (fin - start)).map (fun t => Char.ofNat t.ID)

/-- `Classifier` fields used by `document.go` (the struct itself is declared
outside this file, with the shape the spec gives the corpus registry): the
shared dictionary, the document registry map and the session's `q`. -/
structure Classifier where
  Dict : Dictionary
  Docs : List (String × IndexedDocument)
  Q : Int
  deriving DecidableEq

/-- The token loop of `generateIndexedDocument`: resolve each token's text
through `add` (grow mode) or `getIndex` (resolve mode), threading the
dictionary state that Go mutates in place. -/
def indexTokens (addWords : Bool) : Dictionary → List GoToken → List IndexedToken × Dictionary
  | dict, [] => ([], dict)
  | dict, t :: ts =>
    let r := if addWords then dict.add t.Text else (dict.getIndex t.Text, dict)
    let rest := indexTokens addWords r.2 ts
    ({ Index := t.Index, Line := t.Line, ID := r.1 } :: rest.1, rest.2)

/-- `generateIndexedDocument` creates an IndexedDocument from the supplied
document; if `addWords` is true the classifier dictionary is updated with new
tokens. Go mutates `c.Dict` through a pointer, so the model returns the
updated classifier alongside the document. -/
def Classifier.generateIndexedDocument (c : Classifier) (d : GoDocument)
    (addWords : Bool) : IndexedDocument × Classifier :=
  let r := indexTokens addWords c.Dict d.Tokens
  let id0 : IndexedDocument :=
    { Tokens := r.1, f := none, dict := r.2, s := none, runes := [], norm := "" }
  let id1 := id0.generateFrequencies
  let id2 := { id1 with runes := diffWordsToRunes id1 0 id1.size }
  let id3 := { id2 with norm := id2.normalized }
  (id3, { c with Dict := r.2 })

/-- `os.PathSeparator` on the platform the classifier targets. -/
def pathSeparator : Char := '/'

/-- `generateDocName` renders `"%s%c%s%c%s"` with the path separator between
the three key components. -/
def Classifier.generateDocName (c : Classifier) (category name variant : String) : String :=
  category ++ pathSeparator.toString ++ name ++ pathSeparator.toString ++ variant

/-- `addDocument` indexes a document in grow mode, eagerly attaches its
frequency table and search set, tags the search set with the composite key,
and stores it in the registry under that key. -/
def Classifier.addDocument (c : Classifier) (category name variant : String)
    (doc : GoDocument) : Classifier :=
  let indexName := c.generateDocName category name variant
  let r := c.generateIndexedDocument doc true
  let id1 := r.1.generateFrequencies
  let id2 := id1.generateSearchSet c.Q
  let id3 := { id2 with s := id2.s.map (fun ss => { ss with origin := indexName }) }
  { r.2 with Docs := mapInsert r.2.Docs indexName id3 }

/-- `getIndexedDocument` looks the composite key up in the registry; a missing
entry is Go's nil pointer, modelled as `none`. -/
def Classifier.getIndexedDocument (c : Classifier) (category name variant : String) :
    Option IndexedDocument :=
  mapLookup c.Docs (c.generateDocName category name variant)

/-- Modelled from the spec: the lexical tokenizer (`tokenize` lives outside
`document.go`) is an external collaborator whose rules are out of scope; only
its interface contract matters here — token `Index` values are contiguous
ordinals starting at 0 in document order and `Line` values are 1-based. This
model splits the input on spaces and newlines. -/
def splitWordsAux : List Char → List Char → Int → List (String × Int)
  | [], [], _ => []
  | [], cur, line => [(String.mk cur.reverse, line)]
  | ch :: rest, cur, line =>
    if ch = '\n' then
      if cur = [] then splitWordsAux rest [] (line + 1)
      else (String.mk cur.reverse, line) :: splitWordsAux rest [] (line + 1)
    else if ch = ' ' then
      if cur = [] then splitWordsAux rest [] line
      else (String.mk cur.reverse, line) :: splitWordsAux rest [] line
    else splitWordsAux rest (ch :: cur) line

/-- Modelled from the spec: `tokenize(rawBytes) -> Document`, the external
tokenizer, modelled as whitespace splitting with 0-based token ordinals and
1-based line numbers. -/
def tokenize (content : List Char) : GoDocument :=
  { Tokens := (splitWordsAux content [] 1).enum.map
      (fun p => { Text := p.2.1, Index := (p.1 : Int), Line := p.2.2, Previous := "" }) }

/-- `createTargetIndexedDocument` tokenizes the input and indexes it in
resolve mode, without adding words to the classifier dictionary. -/
def Classifier.createTargetIndexedDocument (c : Classifier) (input : List Char) :
    IndexedDocument × Classifier :=
  c.generateIndexedDocument (tokenize input) false

/-- `AddContent` tokenizes the content and delegates to `addDocument`. -/
def Classifier.AddContent (c : Classifier) (category name variant : String)
    (content : List Char) : Classifier :=
  c.addDocument category name variant (tokenize content)

/-! ### Lemmas about the Go-map model -/

theorem mapLookup_insert_self {α β : Type} [DecidableEq α]
    (m : List (α × β)) (k : α) (v : β) :
    mapLookup (mapInsert m k v) k = some v := by
  induction m with
  | nil => simp [mapInsert, mapLookup]
  | cons p m ih =>
    by_cases h : p.1 = k
    · simp [mapInsert, h, mapLookup]
    · simp [mapInsert, h, mapLookup, ih]

theorem mapLookup_insert_ne {α β : Type} [DecidableEq α]
    (m : List (α × β)) (k k' : α) (v : β) (h : k' ≠ k) :
    mapLookup (mapInsert m k v) k' = mapLookup m k' := by
  have hkk : ¬ (k = k') := fun e => h e.symm
  induction m with
  | nil => simp [mapInsert, mapLookup, hkk]
  | cons p m ih =>
    by_cases hp : p.1 = k
    · have hp' : ¬ (p.1 = k') := by rw [hp]; exact hkk
      simp [mapInsert, hp, mapLookup, hkk, hp']
    · by_cases hp' : p.1 = k'
      · simp only [mapInsert, if_neg hp, mapLookup, if_pos hp']
      · simp [mapInsert, hp, mapLookup, hp', ih]

theorem mapLookup_eq_none {α β : Type} [DecidableEq α]
    (m : List (α × β)) (k : α) (h : ∀ p ∈ m, p.1 ≠ k) :
    mapLookup m k = none := by
  induction m with
  | nil => rfl
  | cons p m ih =>
    have h1 : ¬ (p.1 = k) := h p (by simp)
    simp only [mapLookup, if_neg h1]
    exact ih (fun q hq => h q (by simp [hq]))

theorem mapInsert_of_not_mem {α β : Type} [DecidableEq α]
    (m : List (α × β)) (k : α) (v : β) (h : ∀ p ∈ m, p.1 ≠ k) :
    mapInsert m k v = m ++ [(k, v)] := by
  induction m with
  | nil => rfl
  | cons p m ih =>
    have h1 : ¬ (p.1 = k) := h p (by simp)
    simp only [mapInsert, if_neg h1, List.cons_append, List.cons.injEq, true_and]
    exact ih (fun q hq => h q (by simp [hq]))

/-! ### Lemmas about the canonical dictionary states -/

theorem wordsFrom_length (ws : List String) (k : Nat) :
    (wordsFrom k ws).length = ws.length := by
  induction ws generalizing k with
  | nil => rfl
  | cons w ws ih => simp [wordsFrom, ih]

theorem mapLookup_wordsFrom (ws : List String) (k j : Nat) :
    mapLookup (wordsFrom k ws) (k + j) = ws[j]? := by
  induction ws generalizing k j with
  | nil => simp [wordsFrom, mapLookup]
  | cons w ws ih =>
    cases j with
    | zero => simp [wordsFrom, mapLookup]
    | succ j =>
      have hne : ¬ (k = k + 1 + j) := by omega
      have he : k + (j + 1) = (k + 1) + j := by omega
      rw [List.getElem?_cons_succ, ← ih (k + 1) j]
      simp only [wordsFrom, mapLookup, he, if_neg hne]

theorem mem_wordsFrom_key_bound (ws : List String) (k : Nat) :
    ∀ p ∈ wordsFrom k ws, k ≤ p.1 ∧ p.1 < k + ws.length := by
  induction ws generalizing k with
  | nil => simp [wordsFrom]
  | cons w ws ih =>
    intro p hp
    simp only [wordsFrom, List.mem_cons] at hp
    rcases hp with h | h
    · subst h; simp
    · have := ih (k + 1) p h
      simp only [List.length_cons]
      omega

theorem mapLookup_wordsFrom_out (ws : List String) (k i : Nat)
    (h : i < k ∨ k + ws.length ≤ i) :
    mapLookup (wordsFrom k ws) i = none := by
  apply mapLookup_eq_none
  intro p hp
  have := mem_wordsFrom_key_bound ws k p hp
  omega

theorem mem_indicesFrom_key_mem (ws : List String) (k : Nat) :
    ∀ p ∈ indicesFrom k ws, p.1 ∈ ws := by
  induction ws generalizing k with
  | nil => simp [indicesFrom]
  | cons w ws ih =>
    intro p hp
    simp only [indicesFrom, List.mem_cons] at hp
    rcases hp with h | h
    · subst h; simp
    · exact List.mem_cons_of_mem _ (ih (k + 1) p h)

theorem mapLookup_indicesFrom_of_not_mem (ws : List String) (k : Nat) (w : String)
    (h : w ∉ ws) :
    mapLookup (indicesFrom k ws) w = none := by
  apply mapLookup_eq_none
  intro p hp he
  exact h (he ▸ mem_indicesFrom_key_mem ws k p hp)

theorem mapLookup_indicesFrom_mem (ws : List String) (k : Nat) (w : String)
    (h : w ∈ ws) :
    ∃ j, j < ws.length ∧ ws[j]? = some w ∧
      mapLookup (indicesFrom k ws) w = some (k + j) := by
  induction ws generalizing k with
  | nil => simp at h
  | cons a ws ih =>
    by_cases ha : a = w
    · exact ⟨0, by simp, by simp [ha], by simp [indicesFrom, mapLookup, ha]⟩
    · have hw : w ∈ ws := by
        rcases List.mem_cons.mp h with h' | h'
        · exact absurd h'.symm ha
        · exact h'
      obtain ⟨j, hj, hg, hl⟩ := ih (k + 1) hw
      refine ⟨j + 1, by simpa using Nat.succ_lt_succ hj, by simpa using hg, ?_⟩
      have : k + 1 + j = k + (j + 1) := by omega
      simp [indicesFrom, mapLookup, ha, hl, this]

theorem mapLookup_indicesFrom_nodup (ws : List String) (k : Nat) (hn : ws.Nodup)
    (j : Nat) (w : String) (hw : ws[j]? = some w) :
    mapLookup (indicesFrom k ws) w = some (k + j) := by
  induction ws generalizing k j with
  | nil => simp at hw
  | cons a ws ih =>
    rcases List.nodup_cons.mp hn with ⟨hna, hnd⟩
    cases j with
    | zero =>
      rw [List.getElem?_cons_zero, Option.some_inj] at hw
      subst hw
      simp [indicesFrom, mapLookup]
    | succ j =>
      rw [List.getElem?_cons_succ] at hw
      have hmem : w ∈ ws := List.getElem?_mem hw
      have hne : ¬ (a = w) := fun he => hna (he ▸ hmem)
      have he : (k + 1) + j = k + (j + 1) := by omega
      rw [← he, ← ih (k + 1) hnd j hw]
      simp only [indicesFrom, mapLookup, if_neg hne]

theorem wordsFrom_append (ws : List String) (w : String) (k : Nat) :
    wordsFrom k (ws ++ [w]) = wordsFrom k ws ++ [(k + ws.length, w)] := by
  induction ws generalizing k with
  | nil => simp [wordsFrom]
  | cons a ws ih =>
    have : k + (ws.length + 1) = (k + 1) + ws.length := by omega
    simp [wordsFrom, ih, this]

theorem indicesFrom_append (ws : List String) (w : String) (k : Nat) :
    indicesFrom k (ws ++ [w]) = indicesFrom k ws ++ [(w, k + ws.length)] := by
  induction ws generalizing k with
  | nil => simp [indicesFrom]
  | cons a ws ih =>
    have : k + (ws.length + 1) = (k + 1) + ws.length := by omega
    simp [indicesFrom, ih, this]

/-! ### Behaviour of the dictionary operations on canonical states -/

theorem dictOfWords_words_length (ws : List String) :
    (dictOfWords ws).Words.length = ws.length :=
  wordsFrom_length ws 1

theorem getIndex_dictOfWords_not_mem (ws : List String) (w : String) (h : w ∉ ws) :
    (dictOfWords ws).getIndex w = unknownIndex := by
  simp [Dictionary.getIndex, dictOfWords, mapLookup_indicesFrom_of_not_mem ws 1 w h]

theorem getIndex_dictOfWords_getElem (ws : List String) (hn : ws.Nodup)
    (j : Nat) (w : String) (hw : ws[j]? = some w) :
    (dictOfWords ws).getIndex w = j + 1 := by
  have := mapLookup_indicesFrom_nodup ws 1 hn j w hw
  simp [Dictionary.getIndex, dictOfWords, this, Nat.add_comm 1 j]

theorem getIndex_dictOfWords_mem (ws : List String) (w : String) (h : w ∈ ws) :
    ∃ j, j < ws.length ∧ ws[j]? = some w ∧ (dictOfWords ws).getIndex w = j + 1 := by
  obtain ⟨j, hj, hg, hl⟩ := mapLookup_indicesFrom_mem ws 1 w h
  exact ⟨j, hj, hg, by simp [Dictionary.getIndex, dictOfWords, hl, Nat.add_comm 1 j]⟩

theorem getWord_dictOfWords_getElem (ws : List String) (j : Nat) :
    (dictOfWords ws).getWord (j + 1) = (ws[j]?).getD unknownWord := by
  have := mapLookup_wordsFrom ws 1 j
  rw [Nat.add_comm 1 j] at this
  cases hg : ws[j]? with
  | none => simp [Dictionary.getWord, dictOfWords, this, hg]
  | some w => simp [Dictionary.getWord, dictOfWords, this, hg]

theorem getWord_dictOfWords_out (ws : List String) (i : Nat)
    (h : i = 0 ∨ ws.length < i) :
    (dictOfWords ws).getWord i = unknownWord := by
  have hl : mapLookup (wordsFrom 1 ws) i = none := by
    apply mapLookup_wordsFrom_out
    omega
  simp [Dictionary.getWord, dictOfWords, hl]

theorem add_dictOfWords_mem (ws : List String) (w : String) (h : w ∈ ws) :
    (dictOfWords ws).add w = ((dictOfWords ws).getIndex w, dictOfWords ws) := by
  obtain ⟨j, _, _, hi⟩ := getIndex_dictOfWords_mem ws w h
  have : (dictOfWords ws).getIndex w ≠ unknownIndex := by
    rw [hi]; simp [unknownIndex]
  simp [Dictionary.add, this]

theorem add_dictOfWords_not_mem (ws : List String) (w : String) (h : w ∉ ws) :
    (dictOfWords ws).add w = (ws.length + 1, dictOfWords (ws ++ [w])) := by
  have hz : (dictOfWords ws).getIndex w = unknownIndex :=
    getIndex_dictOfWords_not_mem ws w h
  have hlen : (dictOfWords ws).Words.length = ws.length := dictOfWords_words_length ws
  have hwords : mapInsert (dictOfWords ws).Words (ws.length + 1) w
      = wordsFrom 1 (ws ++ [w]) := by
    rw [mapInsert_of_not_mem]
    · rw [wordsFrom_append ws w 1]
      simp [dictOfWords, Nat.add_comm 1 ws.length]
    · intro p hp
      have := mem_wordsFrom_key_bound ws 1 p hp
      omega
  have hindices : mapInsert (dictOfWords ws).Indices w (ws.length + 1)
      = indicesFrom 1 (ws ++ [w]) := by
    rw [mapInsert_of_not_mem]
    · rw [indicesFrom_append ws w 1]
      simp [dictOfWords, Nat.add_comm 1 ws.length]
    · intro p hp he
      exact h (he ▸ mem_indicesFrom_key_mem ws 1 p hp)
  simp only [Dictionary.add, hz, ne_eq, not_true_eq_false, if_false, hlen]
  rw [hwords, hindices]
  rfl

theorem wf_newDictionary : newDictionary.wf :=
  ⟨[], List.nodup_nil, rfl⟩

theorem wf_add (d : Dictionary) (hd : d.wf) (w : String) : ((d.add w).2).wf := by
  obtain ⟨ws, hn, rfl⟩ := hd
  by_cases h : w ∈ ws
  · rw [add_dictOfWords_mem ws w h]
    exact ⟨ws, hn, rfl⟩
  · rw [add_dictOfWords_not_mem ws w h]
    exact ⟨ws ++ [w], by simp [List.nodup_append, hn, h], rfl⟩

/-! ### Stability of `add` on arbitrary dictionary states -/

theorem add_fst_ne_zero (d : Dictionary) (w : String) : (d.add w).1 ≠ 0 := by
  by_cases h : d.getIndex w ≠ unknownIndex
  · simp only [Dictionary.add, if_pos h]
    simpa [unknownIndex] using h
  · simp [Dictionary.add, h]

theorem getIndex_add_self (d : Dictionary) (w : String) :
    ((d.add w).2).getIndex w = (d.add w).1 := by
  by_cases h : d.getIndex w ≠ unknownIndex
  · simp [Dictionary.add, h]
  · simp only [Dictionary.add, h, if_false]
    simp [Dictionary.getIndex, mapLookup_insert_self]

theorem getIndex_add_other (d : Dictionary) (w v : String) (h : v ≠ w) :
    ((d.add w).2).getIndex v = d.getIndex v := by
  by_cases hp : d.getIndex w ≠ unknownIndex
  · simp [Dictionary.add, hp]
  · simp only [Dictionary.add, hp, if_false]
    simp [Dictionary.getIndex, mapLookup_insert_ne _ _ _ _ h]

/-! ### Lemmas about the token-indexing loop -/

theorem indexTokens_false (d : Dictionary) (ts : List GoToken) :
    indexTokens false d ts
      = (ts.map (fun t => { Index := t.Index, Line := t.Line, ID := d.getIndex t.Text }), d) := by
  induction ts with
  | nil => rfl
  | cons t ts ih => simp [indexTokens, ih]

theorem indexTokens_length (b : Bool) (d : Dictionary) (ts : List GoToken) :
    (indexTokens b d ts).1.length = ts.length := by
  induction ts generalizing d with
  | nil => rfl
  | cons t ts ih => simp [indexTokens, ih]

theorem indexTokens_meta (b : Bool) (d : Dictionary) (ts : List GoToken) :
    (indexTokens b d ts).1.map (fun it => (it.Index, it.Line))
      = ts.map (fun t => (t.Index, t.Line)) := by
  induction ts generalizing d with
  | nil => rfl
  | cons t ts ih => simp [indexTokens, ih]

theorem indexTokens_true_cons (d : Dictionary) (t : GoToken) (ts : List GoToken) :
    indexTokens true d (t :: ts)
      = ({ Index := t.Index, Line := t.Line, ID := (d.add t.Text).1 }
           :: (indexTokens true (d.add t.Text).2 ts).1,
         (indexTokens true (d.add t.Text).2 ts).2) := rfl

theorem indexTokens_preserves_getIndex (ts : List GoToken) (d : Dictionary)
    (w : String) (h : d.getIndex w ≠ 0) :
    (indexTokens true d ts).2.getIndex w = d.getIndex w := by
  induction ts generalizing d with
  | nil => rfl
  | cons t ts ih =>
    rw [indexTokens_true_cons]
    by_cases ht : t.Text = w
    · subst ht
      have hb : d.getIndex t.Text ≠ unknownIndex := by simpa [unknownIndex] using h
      have hd : (d.add t.Text).2 = d := by simp [Dictionary.add, hb]
      rw [hd, ih d h]
    · have hother : ((d.add t.Text).2).getIndex w = d.getIndex w :=
        getIndex_add_other d t.Text w (fun e => ht e.symm)
      rw [ih _ (hother ▸ h), hother]

theorem indexTokens_true_getElem (ts : List GoToken) (d : Dictionary)
    (j : Nat) (t : GoToken) (ht : ts[j]? = some t) :
    ∃ it : IndexedToken, (indexTokens true d ts).1[j]? = some it ∧
      it.ID = (indexTokens true d ts).2.getIndex t.Text ∧ it.ID ≠ 0 := by
  induction ts generalizing d j with
  | nil => simp at ht
  | cons a ts ih =>
    cases j with
    | zero =>
      rw [List.getElem?_cons_zero, Option.some_inj] at ht
      subst ht
      refine ⟨{ Index := a.Index, Line := a.Line, ID := (d.add a.Text).1 }, ?_, ?_, ?_⟩
      · rw [indexTokens_true_cons, List.getElem?_cons_zero]
      · rw [indexTokens_true_cons]
        have h1 : ((d.add a.Text).2).getIndex a.Text = (d.add a.Text).1 :=
          getIndex_add_self d a.Text
        have h2 : (d.add a.Text).1 ≠ 0 := add_fst_ne_zero d a.Text
        rw [indexTokens_preserves_getIndex ts ((d.add a.Text).2) a.Text (h1 ▸ h2), h1]
      · exact add_fst_ne_zero d a.Text
    | succ j =>
      rw [List.getElem?_cons_succ] at ht
      obtain ⟨it, hit, hid, hnz⟩ := ih ((d.add a.Text).2) j ht
      refine ⟨it, ?_, ?_, hnz⟩
      · rw [indexTokens_true_cons, List.getElem?_cons_succ]
        exact hit
      · rw [indexTokens_true_cons]
        exact hid

/-! ### Unfolding the components of `generateIndexedDocument` -/

theorem gid_Tokens (c : Classifier) (d : GoDocument) (b : Bool) :
    (c.generateIndexedDocument d b).1.Tokens = (indexTokens b c.Dict d.Tokens).1 := rfl

theorem gid_dict (c : Classifier) (d : GoDocument) (b : Bool) :
    (c.generateIndexedDocument d b).1.dict = (indexTokens b c.Dict d.Tokens).2 := rfl

theorem gid_s (c : Classifier) (d : GoDocument) (b : Bool) :
    (c.generateIndexedDocument d b).1.s = none := rfl

theorem gid_f (c : Classifier) (d : GoDocument) (b : Bool) :
    (c.generateIndexedDocument d b).1.f
      = some { ids := (indexTokens b c.Dict d.Tokens).1.map (fun t => t.ID) } := rfl

theorem gid_norm (c : Classifier) (d : GoDocument) (b : Bool) :
    (c.generateIndexedDocument d b).1.norm
      = joinWords (indexTokens b c.Dict d.Tokens).2 (indexTokens b c.Dict d.Tokens).1 := rfl

theorem gid_snd (c : Classifier) (d : GoDocument) (b : Bool) :
    (c.generateIndexedDocument d b).2 = { c with Dict := (indexTokens b c.Dict d.Tokens).2 } := rfl

/-! ### The normalized string as a space-join -/

theorem intercalate_go_append (l : List String) : ∀ a b : String,
    String.intercalate.go (a ++ b) " " l = a ++ String.intercalate.go b " " l := by
  induction l with
  | nil => intro a b; simp [String.intercalate.go]
  | cons c l ih =>
    intro a b
    show String.intercalate.go (a ++ b ++ " " ++ c) " " l
      = a ++ String.intercalate.go (b ++ " " ++ c) " " l
    rw [String.append_assoc, String.append_assoc, ← String.append_assoc b,
      ih a (b ++ " " ++ c), String.append_assoc]

theorem intercalate_go_cons (a b : String) (l : List String) :
    String.intercalate.go a " " (b :: l) = a ++ " " ++ String.intercalate.go b " " l := by
  show String.intercalate.go (a ++ " " ++ b) " " l = a ++ " " ++ String.intercalate.go b " " l
  rw [String.append_assoc, intercalate_go_append l a (" " ++ b),
    intercalate_go_append l " " b, ← String.append_assoc]

theorem joinWords_eq_intercalate (dict : Dictionary) (ts : List IndexedToken) :
    joinWords dict ts = String.intercalate " " (ts.map (fun t => dict.getWord t.ID)) := by
  induction ts with
  | nil => rfl
  | cons t rest ih =>
    cases rest with
    | nil => simp [joinWords, String.intercalate, String.intercalate.go]
    | cons u rest2 =>
      show dict.getWord t.ID ++ " " ++ joinWords dict (u :: rest2) = _
      rw [ih]
      simp only [List.map_cons, String.intercalate]
      rw [intercalate_go_cons]

theorem data_append (a b : String) : (a ++ b).data = a.data ++ b.data := rfl

theorem joinWords_space_count (dict : Dictionary) (ts : List IndexedToken)
    (h : ∀ t ∈ ts, ' ' ∉ (dict.getWord t.ID).data) :
    (joinWords dict ts).data.count ' ' = ts.length - 1 := by
  induction ts with
  | nil => rfl
  | cons t rest ih =>
    cases rest with
    | nil =>
      show (dict.getWord t.ID).data.count ' ' = 0
      exact List.count_eq_zero_of_not_mem (h t (by simp))
    | cons u rest2 =>
      show ((dict.getWord t.ID ++ " " ++ joinWords dict (u :: rest2)).data.count ' ')
        = (u :: rest2).length + 1 - 1
      rw [data_append, data_append, List.count_append, List.count_append]
      rw [List.count_eq_zero_of_not_mem (h t (by simp)),
        ih (fun x hx => h x (by simp [hx]))]
      have hs : List.count ' ' " ".data = 1 := rfl
      rw [hs]
      simp only [List.length_cons]
      omega

/-! ### Remaining helper lemmas -/

theorem goMax_eq (a b : Int) : goMax a b = max a b := by
  unfold goMax
  split
  · exact (max_eq_left (le_of_lt (by assumption))).symm
  · exact (max_eq_right (le_of_not_lt (by assumption))).symm

theorem goInt_of_nonneg (q : ℚ) (h : 0 ≤ q) : goInt q = ⌊q⌋ := by
  simp [goInt, h]

theorem add_stable (d : Dictionary) (w : String) (h : d.getIndex w ≠ unknownIndex) :
    d.add w = (d.getIndex w, d) := by
  simp [Dictionary.add, h]

/-! ## The claims -/

/-- C2: `computeQ 1 = 10` exactly; for every threshold `t` with `0 < t < 1`,
`computeQ t = max 1 ⌊t / (1 - t)⌋` (Go's `int(...)` truncation agrees with the
floor on the non-negative ratio); in particular `computeQ 0.8 = 4`,
`computeQ 0.5 = 1`, `computeQ 0.3 = 1`; and the result is at least `1` for
every threshold in `(0, 1]`. -/
theorem claim_C2 :
    computeQ 1 = 10 ∧
    (∀ t : ℚ, 0 < t → t < 1 → computeQ t = max 1 ⌊t / (1 - t)⌋) ∧
    computeQ (4/5) = 4 ∧ computeQ (1/2) = 1 ∧ computeQ (3/10) = 1 ∧
    (∀ t : ℚ, 0 < t → t ≤ 1 → 1 ≤ computeQ t) := by
  have hgen : ∀ t : ℚ, 0 < t → t < 1 → computeQ t = max 1 ⌊t / (1 - t)⌋ := by
    intro t h0 h1
    have hne : t ≠ 1 := ne_of_lt h1
    have hnn : 0 ≤ t / (1 - t) := div_nonneg h0.le (by linarith)
    rw [computeQ, if_neg hne, goInt_of_nonneg _ hnn, goMax_eq]
  refine ⟨by norm_num [computeQ], hgen, ?_, ?_, ?_, ?_⟩
  · rw [hgen (4/5) (by norm_num) (by norm_num)]
    norm_num
  · rw [hgen (1/2) (by norm_num) (by norm_num)]
    norm_num
  · rw [hgen (3/10) (by norm_num) (by norm_num)]
    rw [show (3/10 : ℚ) / (1 - 3/10) = 3/7 by norm_num]
    rw [show ⌊(3/7 : ℚ)⌋ = 0 by
      rw [Int.floor_eq_zero_iff]
      constructor <;> norm_num]
    norm_num
  · intro t h0 h1
    rcases eq_or_lt_of_le h1 with he | hlt
    · rw [he]
      norm_num [computeQ]
    · rw [hgen t h0 hlt]
      exact le_max_left 1 _

/-- Witness for C2: the general formula applied at the concrete
threshold `1/2`. -/
theorem claim_C2_witness :
    ((0:ℚ) < 1/2 ∧ (1/2:ℚ) < 1) ∧ computeQ (1/2) = max 1 ⌊(1/2 : ℚ) / (1 - 1/2)⌋ :=
  ⟨⟨by norm_num, by norm_num⟩, claim_C2.2.1 (1/2) (by norm_num) (by norm_num)⟩

/-- C4: on any reachable dictionary state, for a non-empty word `w`, after
`add w` returns identifier `id`, `getIndex w` returns `id`, `getWord id`
returns `w`, and a second `add w` returns `id` again without changing the
dictionary (`add`, `getIndex` and `getWord` are pure functions of the
threaded state, so the unchanged returned state is the full non-mutation
statement). -/
theorem claim_C4 (d : Dictionary) (w : String) (hd : d.wf) (hw : w ≠ "") :
    ((d.add w).2).getIndex w = (d.add w).1 ∧
    ((d.add w).2).getWord ((d.add w).1) = w ∧
    ((d.add w).2).add w = ((d.add w).1, (d.add w).2) := by
  have h1 : ((d.add w).2).getIndex w = (d.add w).1 := getIndex_add_self d w
  have h2 : (d.add w).1 ≠ 0 := add_fst_ne_zero d w
  refine ⟨h1, ?_, ?_⟩
  · obtain ⟨ws, hn, rfl⟩ := hd
    by_cases hm : w ∈ ws
    · obtain ⟨j, hj, hg, hi⟩ := getIndex_dictOfWords_mem ws w hm
      rw [add_dictOfWords_mem ws w hm]
      show (dictOfWords ws).getWord ((dictOfWords ws).getIndex w) = w
      rw [hi, getWord_dictOfWords_getElem, hg]
      rfl
    · rw [add_dictOfWords_not_mem ws w hm]
      show (dictOfWords (ws ++ [w])).getWord (ws.length + 1) = w
      rw [getWord_dictOfWords_getElem, List.getElem?_concat_length]
      rfl
  · rw [add_stable ((d.add w).2) w (by rw [h1]; exact h2), h1]

/-- Witness for C4 at the reachable dictionary `dictOfWords ["a"]` and the
fresh non-empty word `"b"`. -/
theorem claim_C4_witness :
    ((dictOfWords ["a"]).wf ∧ "b" ≠ "") ∧
    (((dictOfWords ["a"]).add "b").2).getIndex "b" = ((dictOfWords ["a"]).add "b").1 ∧
    (((dictOfWords ["a"]).add "b").2).getWord (((dictOfWords ["a"]).add "b").1) = "b" ∧
    (((dictOfWords ["a"]).add "b").2).add "b"
      = (((dictOfWords ["a"]).add "b").1, ((dictOfWords ["a"]).add "b").2) :=
  ⟨⟨⟨["a"], by simp, rfl⟩, by decide⟩,
   claim_C4 (dictOfWords ["a"]) "b" ⟨["a"], by simp, rfl⟩ (by decide)⟩

/-- C6: looking up a never-added string returns the sentinel identifier `0`;
`getWord` applied to `0` or to any identifier never assigned returns the
sentinel word `"UNKNOWN"`; both lookups are total functions of the dictionary
state and return no modified state, so they never fail and never mutate. -/
theorem claim_C6 (ws : List String) (w : String) (i : Nat)
    (hw : w ∉ ws) (hi : i = 0 ∨ ws.length < i) :
    (dictOfWords ws).getIndex w = 0 ∧
    (dictOfWords ws).getWord 0 = "UNKNOWN" ∧
    (dictOfWords ws).getWord i = "UNKNOWN" := by
  refine ⟨getIndex_dictOfWords_not_mem ws w hw, ?_, ?_⟩
  · exact getWord_dictOfWords_out ws 0 (Or.inl rfl)
  · exact getWord_dictOfWords_out ws i hi

/-- Witness for C6 at the dictionary `dictOfWords ["a"]`, the absent word
`"b"` and the unassigned identifier `7`. -/
theorem claim_C6_witness :
    ("b" ∉ ["a"] ∧ (7 = 0 ∨ (["a"] : List String).length < 7)) ∧
    (dictOfWords ["a"]).getIndex "b" = 0 ∧
    (dictOfWords ["a"]).getWord 0 = "UNKNOWN" ∧
    (dictOfWords ["a"]).getWord 7 = "UNKNOWN" :=
  ⟨⟨by decide, by decide⟩, claim_C6 ["a"] "b" 7 (by decide) (by decide)⟩

/-- C5: on any reachable dictionary state (the canonical interning of a
duplicate-free word list `ws`), `add` returns the existing identifier when the
word is present and leaves the state unchanged; otherwise it allocates exactly
`count-of-existing-entries + 1`, records both mapping directions, identifiers
start at `1` and are assigned densely in first-seen order (`getIndex` of the
`j`-th first-seen word is `j + 1`), the fresh identifier is strictly greater
than every previously assigned one, and no existing word is ever renumbered. -/
theorem claim_C5 (ws : List String) (w : String) (hn : ws.Nodup) :
    (∀ j w', ws[j]? = some w' → (dictOfWords ws).getIndex w' = j + 1) ∧
    (w ∈ ws → (dictOfWords ws).add w = ((dictOfWords ws).getIndex w, dictOfWords ws)) ∧
    (w ∉ ws →
      ((dictOfWords ws).add w).1 = (dictOfWords ws).Words.length + 1 ∧
      ((dictOfWords ws).add w).2.getIndex w = ws.length + 1 ∧
      ((dictOfWords ws).add w).2.getWord (ws.length + 1) = w ∧
      (∀ j w', ws[j]? = some w' →
        ((dictOfWords ws).add w).2.getIndex w' = j + 1 ∧
        j + 1 < ((dictOfWords ws).add w).1)) := by
  refine ⟨?_, ?_, ?_⟩
  · intro j w' hg
    exact getIndex_dictOfWords_getElem ws hn j w' hg
  · intro hm
    exact add_dictOfWords_mem ws w hm
  · intro hm
    have hadd := add_dictOfWords_not_mem ws w hm
    have hlen : (dictOfWords ws).Words.length = ws.length := dictOfWords_words_length ws
    have hnodup : (ws ++ [w]).Nodup := by simp [List.nodup_append, hn, hm]
    refine ⟨by rw [hadd, hlen], ?_, ?_, ?_⟩
    · rw [hadd]
      exact getIndex_dictOfWords_getElem (ws ++ [w]) hnodup ws.length w
        (List.getElem?_concat_length ws w)
    · rw [hadd]
      show (dictOfWords (ws ++ [w])).getWord (ws.length + 1) = w
      rw [getWord_dictOfWords_getElem, List.getElem?_concat_length]
      rfl
    · intro j w' hg
      have hj : j < ws.length := by
        by_contra hge
        rw [List.getElem?_eq_none (by omega)] at hg
        exact Option.noConfusion hg
      constructor
      · rw [hadd]
        exact getIndex_dictOfWords_getElem (ws ++ [w]) hnodup j w'
          (by rw [List.getElem?_append_left hj]; exact hg)
      · rw [hadd]
        show j + 1 < ws.length + 1
        omega

/-- Witness for C5 at the reachable dictionary `dictOfWords ["a", "b"]` and
the fresh word `"c"`: the fresh identifier is `3`, both directions are
recorded, and the identifiers of `"a"` and `"b"` survive unchanged. -/
theorem claim_C5_witness :
    (["a", "b"] : List String).Nodup ∧
    ("c" ∉ ["a", "b"] →
      ((dictOfWords ["a", "b"]).add "c").1 = (dictOfWords ["a", "b"]).Words.length + 1 ∧
      ((dictOfWords ["a", "b"]).add "c").2.getIndex "c" = (["a", "b"] : List String).length + 1 ∧
      ((dictOfWords ["a", "b"]).add "c").2.getWord ((["a", "b"] : List String).length + 1) = "c" ∧
      (∀ j w', (["a", "b"] : List String)[j]? = some w' →
        ((dictOfWords ["a", "b"]).add "c").2.getIndex w' = j + 1 ∧
        j + 1 < ((dictOfWords ["a", "b"]).add "c").1)) :=
  ⟨by decide, (claim_C5 ["a", "b"] "c" (by decide)).2.2⟩

/-- C3: indexing any document in resolve mode (`addWords = false`, as
`createTargetIndexedDocument` does) leaves the dictionary's `Words` and
`Indices` maps (hence its size) and the registry's `Docs` map exactly as they
were — the returned classifier state is the input state — for every input
document, including ones whose words are absent from the dictionary. -/
theorem claim_C3 (c : Classifier) (doc : GoDocument) (input : List Char) :
    (c.generateIndexedDocument doc false).2 = c ∧
    (c.generateIndexedDocument doc false).2.Dict.Words = c.Dict.Words ∧
    (c.generateIndexedDocument doc false).2.Dict.Indices = c.Dict.Indices ∧
    (c.generateIndexedDocument doc false).2.Dict.Words.length = c.Dict.Words.length ∧
    (c.generateIndexedDocument doc false).2.Docs = c.Docs ∧
    (c.createTargetIndexedDocument input).2 = c := by
  have h : ∀ d : GoDocument, (c.generateIndexedDocument d false).2 = c := by
    intro d
    rw [gid_snd, indexTokens_false]
  refine ⟨h doc, ?_, ?_, ?_, ?_, h (tokenize input)⟩ <;> rw [h doc]

/-- C7: for every document and either mode, the produced IndexedDocument has
exactly one indexed token per input token, in the same order, with `Index` and
`Line` copied from the corresponding input token; in resolve mode every
token's `ID` is `getIndex` of its text against the unchanged dictionary, and
in grow mode every token's `ID` is the (non-sentinel) identifier `add`
assigned to its text, i.e. `getIndex` of its text in the resulting shared
dictionary; an empty document yields zero tokens and the empty normalized
string without failing. -/
theorem claim_C7 (c : Classifier) (doc : GoDocument) (b : Bool) :
    (c.generateIndexedDocument doc b).1.Tokens.length = doc.Tokens.length ∧
    ((c.generateIndexedDocument doc b).1.Tokens.map (fun it => (it.Index, it.Line))
       = doc.Tokens.map (fun t => (t.Index, t.Line))) ∧
    (∀ (j : Nat) (t : GoToken), doc.Tokens[j]? = some t →
       ∃ it : IndexedToken, (c.generateIndexedDocument doc false).1.Tokens[j]? = some it ∧
         it.Index = t.Index ∧ it.Line = t.Line ∧ it.ID = c.Dict.getIndex t.Text) ∧
    (∀ (j : Nat) (t : GoToken), doc.Tokens[j]? = some t →
       ∃ it : IndexedToken, (c.generateIndexedDocument doc true).1.Tokens[j]? = some it ∧
         it.ID = (c.generateIndexedDocument doc true).1.dict.getIndex t.Text ∧
         it.ID ≠ 0) ∧
    (doc.Tokens = [] →
       (c.generateIndexedDocument doc b).1.Tokens = [] ∧
       (c.generateIndexedDocument doc b).1.norm = "") := by
  refine ⟨?_, ?_, ?_, ?_, ?_⟩
  · rw [gid_Tokens]
    exact indexTokens_length b c.Dict doc.Tokens
  · rw [gid_Tokens]
    exact indexTokens_meta b c.Dict doc.Tokens
  · intro j t ht
    rw [gid_Tokens, indexTokens_false]
    refine ⟨{ Index := t.Index, Line := t.Line, ID := c.Dict.getIndex t.Text },
      ?_, rfl, rfl, rfl⟩
    rw [List.getElem?_map, ht]
    rfl
  · intro j t ht
    rw [gid_Tokens, gid_dict]
    exact indexTokens_true_getElem doc.Tokens c.Dict j t ht
  · intro he
    have ht : (c.generateIndexedDocument doc b).1.Tokens = [] := by
      rw [gid_Tokens, he]
      cases b <;> rfl
    refine ⟨ht, ?_⟩
    have : (c.generateIndexedDocument doc b).1.norm
        = (c.generateIndexedDocument doc b).1.normalized := rfl
    rw [this, IndexedDocument.normalized, ht]
    rfl

/-- Concrete sample values used by the witnesses below. -/
def sampleClassifier : Classifier := { Dict := newDictionary, Docs := [], Q := 4 }

/-- A concrete one-token document for the witnesses. -/
def helloDoc : GoDocument :=
  { Tokens := [{ Text := "hello", Index := 0, Line := 1, Previous := "" }] }

/-- A concrete indexed document carrying the sentinel identifier `0` over the
reachable dictionary `dictOfWords ["a"]`. -/
def sentinelDoc : IndexedDocument :=
  { Tokens := [{ Index := 0, Line := 1, ID := 0 }], f := none,
    dict := dictOfWords ["a"], s := none, runes := [], norm := "" }

/-- Witness for C7 at a concrete classifier and one-token document: the
grow-mode token identifier conjunct applied at index `0`. -/
theorem claim_C7_witness :
    (∀ (j : Nat) (t : GoToken), helloDoc.Tokens[j]? = some t →
      ∃ it : IndexedToken,
        (sampleClassifier.generateIndexedDocument helloDoc true).1.Tokens[j]? = some it ∧
        it.ID = (sampleClassifier.generateIndexedDocument helloDoc true).1.dict.getIndex t.Text ∧
        it.ID ≠ 0) :=
  (claim_C7 sampleClassifier helloDoc true).2.2.2.1

/-- C8: `normalized` is the space-joined concatenation of the dictionary text
of each token's identifier in token order (`String.intercalate` of the
rendered words, the spec-side formulation); it is empty for zero tokens; the
join inserts exactly `tokenCount - 1` single-space separators, so whenever no
rendered word itself contains a space the space-character count of
`normalized` is exactly `tokenCount - 1`; the sentinel identifier `0` renders
as the literal word `"UNKNOWN"` on every reachable dictionary; and the result
is identical across two computations from the same token sequence and
dictionary state. -/
theorem claim_C8 (d : IndexedDocument) :
    (d.Tokens = [] → d.normalized = "") ∧
    d.normalized = String.intercalate " " (d.Tokens.map (fun t => d.dict.getWord t.ID)) ∧
    ((∀ t ∈ d.Tokens, ' ' ∉ (d.dict.getWord t.ID).data) →
        d.normalized.data.count ' ' = d.Tokens.length - 1) ∧
    (d.dict.wf → d.dict.getWord 0 = "UNKNOWN") ∧
    (∀ d' : IndexedDocument, d'.Tokens = d.Tokens → d'.dict = d.dict →
        d'.normalized = d.normalized) := by
  refine ⟨?_, ?_, ?_, ?_, ?_⟩
  · intro he
    rw [IndexedDocument.normalized, he]
    rfl
  · exact joinWords_eq_intercalate d.dict d.Tokens
  · intro h
    exact joinWords_space_count d.dict d.Tokens h
  · rintro ⟨ws, hn, hws⟩
    rw [hws]
    exact getWord_dictOfWords_out ws 0 (Or.inl rfl)
  · intro d' ht hd
    rw [IndexedDocument.normalized, IndexedDocument.normalized, ht, hd]

/-- Witness for C8 at the concrete document `sentinelDoc`: its single token
carries the sentinel identifier `0`, renders as `"UNKNOWN"`, and the space
count of the normalized string is `0 = 1 - 1`. -/
theorem claim_C8_witness :
    ((∀ t ∈ sentinelDoc.Tokens, ' ' ∉ (sentinelDoc.dict.getWord t.ID).data) ∧
      sentinelDoc.dict.wf) ∧
    sentinelDoc.normalized.data.count ' ' = sentinelDoc.Tokens.length - 1 ∧
    sentinelDoc.dict.getWord 0 = "UNKNOWN" :=
  ⟨⟨by decide, ⟨["a"], by decide, rfl⟩⟩,
   (claim_C8 sentinelDoc).2.2.1 (by decide),
   (claim_C8 sentinelDoc).2.2.2.1 ⟨["a"], by decide, rfl⟩⟩

/-- Counterexample to C1 as stated: `generateIndexedDocument` itself invokes
the frequency-table construction (line 144 of `document.go`), so already on
the empty document in grow mode the returned IndexedDocument has a frequency
table attached, contradicting "no frequency table … attached … for every
input document". -/
theorem claim_C1_counterexample :
    (sampleClassifier.generateIndexedDocument { Tokens := [] } true).1.f ≠ none := by
  decide

/-- C1 as amended: after `generateIndexedDocument` returns, the resulting
IndexedDocument has no search set attached, in either grow or resolve mode,
for every input document — the search set is attached only by the separate,
explicitly requested `generateSearchSet` call — but a frequency table IS
already attached, because `generateIndexedDocument` itself calls
`generateFrequencies`. -/
theorem claim_C1 (c : Classifier) (d : GoDocument) (b : Bool) (q : Int) :
    (c.generateIndexedDocument d b).1.s = none ∧
    (c.generateIndexedDocument d b).1.f ≠ none ∧
    ((c.generateIndexedDocument d b).1.generateSearchSet q).s ≠ none := by
  refine ⟨gid_s c d b, ?_, ?_⟩
  · rw [gid_f]
    exact fun h => Option.noConfusion h
  · exact fun h => Option.noConfusion h

/-- Witness for C1 at a concrete classifier, document, mode and `q`. -/
theorem claim_C1_witness :
    (sampleClassifier.generateIndexedDocument helloDoc true).1.s = none ∧
    (sampleClassifier.generateIndexedDocument helloDoc true).1.f ≠ none ∧
    ((sampleClassifier.generateIndexedDocument helloDoc true).1.generateSearchSet 4).s ≠ none :=
  claim_C1 sampleClassifier helloDoc true 4

/-- After `addDocument`, looking up the same composite key returns a stored
IndexedDocument whose token sequence is exactly the grow-mode indexing of the
input document against the classifier's dictionary. -/
theorem addDocument_lookup (c : Classifier) (category name variant : String)
    (doc : GoDocument) :
    ∃ stored : IndexedDocument,
      (c.addDocument category name variant doc).getIndexedDocument category name variant
        = some stored ∧
      stored.Tokens = (c.generateIndexedDocument doc true).1.Tokens := by
  simp only [Classifier.addDocument, Classifier.getIndexedDocument,
    Classifier.generateDocName]
  exact ⟨_, mapLookup_insert_self _ _ _, rfl⟩

/-- C9: for every (category, name, variant) triple, `addDocument` followed by
`getIndexedDocument` with the same triple returns a stored IndexedDocument
whose token identifiers equal those produced by grow-mode indexing of the
same input against the shared dictionary; a second `addDocument` with the
same triple fully replaces the first entry — the lookup then returns the
entry derived from the second document, so the old IndexedDocument is no
longer retrievable by that key. -/
theorem claim_C9 (c : Classifier) (category name variant : String)
    (doc doc2 : GoDocument) :
    (∃ stored : IndexedDocument,
      (c.addDocument category name variant doc).getIndexedDocument category name variant
        = some stored ∧
      stored.Tokens = (c.generateIndexedDocument doc true).1.Tokens) ∧
    (∃ stored2 : IndexedDocument,
      Classifier.getIndexedDocument
          ((c.addDocument category name variant doc).addDocument category name variant doc2)
          category name variant = some stored2 ∧
      stored2.Tokens
        = ((c.addDocument category name variant doc).generateIndexedDocument doc2 true).1.Tokens) :=
  ⟨addDocument_lookup c category name variant doc,
   addDocument_lookup (c.addDocument category name variant doc) category name variant doc2⟩

/-- A second concrete one-token document, distinct from `helloDoc`. -/
def worldDoc : GoDocument :=
  { Tokens := [{ Text := "world", Index := 0, Line := 1, Previous := "" }] }

/-- C10: `generateDocName` is not injective — the distinct triples
`("a/b", "c", "d")` and `("a", "b/c", "d")` render the identical key string
because a component itself contains the path-separator character — so
`addDocument` under one triple silently overwrites the registry entry stored
under the other, and lookup cannot distinguish the two triples. -/
theorem claim_C10 :
    ((("a/b", "c", "d") : String × String × String) ≠ ("a", "b/c", "d")) ∧
    sampleClassifier.generateDocName "a/b" "c" "d"
      = sampleClassifier.generateDocName "a" "b/c" "d" ∧
    Classifier.getIndexedDocument
        ((sampleClassifier.addDocument "a" "b/c" "d" helloDoc).addDocument "a/b" "c" "d" worldDoc)
        "a" "b/c" "d"
      ≠ Classifier.getIndexedDocument (sampleClassifier.addDocument "a" "b/c" "d" helloDoc)
          "a" "b/c" "d" ∧
    Classifier.getIndexedDocument
        ((sampleClassifier.addDocument "a" "b/c" "d" helloDoc).addDocument "a/b" "c" "d" worldDoc)
        "a" "b/c" "d"
      = Classifier.getIndexedDocument
          ((sampleClassifier.addDocument "a" "b/c" "d" helloDoc).addDocument "a/b" "c" "d" worldDoc)
          "a/b" "c" "d" := by
  refine ⟨by decide, by decide, by decide, by decide⟩

end LicenseClassifier
